import Mathlib

/- Shallow embedding of src/py/shuffle_node.py, the shuffle component of the
   anon protocol.  Byte strings are lists of naturals (one per byte).  The
   external libraries the source calls (cPickle, M2Crypto RSA, the AnonCrypto
   facade, the AnonNet transport) are modelled as explicit function parameters
   with the contracts the source relies on, except where a claim depends on a
   concrete byte format: the protocol-0 pickle encoding of the packaged datum
   is modelled concretely in cPickle_dumps_int_str.  Python exceptions are
   modelled with Except PyErr; each constructor of PyErr names one of the
   raise sites or Python builtin errors of the source. -/

abbrev Bytes := List Nat

/-- The exceptions the source can raise: RuntimeError with its various
messages, plus the Python builtin KeyError/IndexError at dictionary and list
subscripts, and the failures of the abstracted crypto calls. -/
inductive PyErr where
  | mismatchedRoundIds
  | differingMsgLengths
  | nodeReportsFailure
  | badHash
  | badSignature
  | invalidKey
  | missingKey
  | missingIndex
  | onlyLeaderCanBroadcast
  deriving DecidableEq

/-- The pair the source pickles in package_msg (shuffle_node.py lines 61-68):
`(len(msg), msg + 'X' * (self.max_len - len(msg)))`.  88 is the byte 'X'.
Python repeats a string a negative number of times as the empty string, which
Nat subtraction mirrors exactly: for an over-long msg no padding is added and
no error is raised. -/
def package_tuple (max_len : Nat) (msg : Bytes) : Nat × Bytes :=
  (msg.length, msg ++ List.replicate (max_len - msg.length) 88)

/-- package_msg: the stored datum `self.msg_contents` is the cPickle dump of
package_tuple.  Reading the message file is abstracted: `msg` is the file
contents.  `dumps` abstracts cPickle.dumps on (int, str) pairs. -/
def package_msg (dumps : Nat × Bytes → Bytes) (max_len : Nat) (msg : Bytes) : Bytes :=
  dumps (package_tuple max_len msg)

/-- unpackage_msg (shuffle_node.py lines 70-75): unpickle `(mlen, padded_msg)`,
raise RuntimeError when the padded payload is not exactly max_len bytes,
otherwise return `padded_msg[:mlen]`.  `loads` abstracts cPickle.loads. -/
def unpackage_msg (loads : Bytes → Nat × Bytes) (max_len : Nat) (msg_str : Bytes) :
    Except PyErr Bytes :=
  let t := loads msg_str
  if t.2.length ≠ max_len then .error .differingMsgLengths
  else .ok (t.2.take t.1)

/-- Lowercase hex digit byte, as Python uses in repr escapes. -/
def hexDigitByte (n : Nat) : Nat := if n < 10 then 48 + n else 87 + n

/-- Python 2 repr escaping of one byte of a str, given the chosen quote byte
`q`: backslash, the quote, newline, carriage return and tab become two-byte
escapes, other non-printable bytes become a four-byte hex escape, printable
bytes stand for themselves. -/
def escChar (q c : Nat) : Bytes :=
  if c = 92 then [92, 92]
  else if c = q then [92, q]
  else if c = 10 then [92, 110]
  else if c = 13 then [92, 114]
  else if c = 9 then [92, 116]
  else if c < 32 ∨ 126 < c then [92, 120, hexDigitByte (c / 16), hexDigitByte (c % 16)]
  else [c]

/-- Python 2 repr of a str: a single quote is preferred (39), a double quote
(34) is chosen when the string contains a single quote but no double quote;
the body is escaped bytewise. -/
def pyRepr (s : Bytes) : Bytes :=
  let q : Nat := if 39 ∈ s ∧ ¬ 34 ∈ s then 34 else 39
  q :: (s.map (escChar q)).flatten ++ [q]

/-- Decimal digit bytes of a natural, most significant first, as in the
protocol-0 INT opcode payload. -/
def decDigits (n : Nat) : Bytes := (Nat.toDigits 10 n).map Char.toNat

/-- Python 2 cPickle.dumps, default protocol 0, of an (int, str) pair: MARK
'(' then INT 'I<decimal>\n' then STRING 'S<repr>\n' then the closing opcodes
(TUPLE, the memo PUT entries and STOP).  The closing opcodes cPickle emits
are a fixed byte sequence that does not depend on the tuple contents; they
are passed in as `memo_suffix` so no claim depends on their exact bytes. -/
def cPickle_dumps_int_str (memo_suffix : Bytes) (t : Nat × Bytes) : Bytes :=
  [40, 73] ++ decDigits t.1 ++ [10, 83] ++ pyRepr t.2 ++ [10] ++ memo_suffix

/-- The Python for-loop over a list that appends one result per element and
propagates the first raised exception, used by shuffle_and_decrypt,
decrypt_ciphers and broadcast_to_all_nodes. -/
def mapLoop {α β : Type} (f : α → Except PyErr β) : List α → Except PyErr (List β)
  | [] => .ok []
  | a :: t =>
    match f a with
    | .error e => .error e
    | .ok y =>
      match mapLoop f t with
      | .error e => .error e
      | .ok ys => .ok (y :: ys)

/-- One of the two nested encryption loops of create_cipher_string, and the
decryption loop of decrypt_ciphers: visit the node indices in the given
order, look each node up in the key dictionary (KeyError when absent, as at
the Python subscripts `self.pub_keys[i]` and `priv_keys[i]`) and apply the
RSA operation with that node's key to the accumulated byte string. -/
def cryptoLoop {T : Type} (op : T → Bytes → Bytes) (keys : Nat → Option T) :
    List Nat → Bytes → Except PyErr Bytes
  | [], c => .ok c
  | i :: rest, c =>
    match keys i with
    | none => .error .missingKey
    | some k => cryptoLoop op keys rest (op k c)

/-- create_cipher_string (shuffle_node.py lines 235-248).  `datum` is
self.datum_string(), `pub_keys` the peer keyset id -> (K1, K2), `encRSA`
abstracts AnonCrypto.encrypt_with_rsa.  Both loops run
`for i in xrange(self.n_nodes - 1, -1, -1)`, i.e. over the index list
(range n_nodes).reverse = [n_nodes-1, ..., 0]: first all secondary keys (K2)
onto the datum giving self.cipher_prime, then all primary keys (K1) on top
giving self.cipher.  Returns (cipher_prime, cipher). -/
def create_cipher_string {K : Type} (encRSA : K → Bytes → Bytes)
    (pub_keys : Nat → Option (K × K)) (n_nodes : Nat) (datum : Bytes) :
    Except PyErr (Bytes × Bytes) :=
  match cryptoLoop encRSA (fun i => (pub_keys i).map Prod.snd)
      ((List.range n_nodes).reverse) datum with
  | .error e => .error e
  | .ok cipher_prime =>
    match cryptoLoop encRSA (fun i => (pub_keys i).map Prod.fst)
        ((List.range n_nodes).reverse) cipher_prime with
    | .error e => .error e
    | .ok cipher => .ok (cipher_prime, cipher)

/-- The inner ciphertext exactly as claim C5 words it: Encrypt with K2 of
node 0 is applied first to the packaged datum and Encrypt with K2 of node
n-1 is the last (outermost) layer. -/
def cipher_prime_claim_order {K : Type} (encRSA : K → Bytes → Bytes)
    (keys : Nat → K × K) (n_nodes : Nat) (datum : Bytes) : Bytes :=
  (List.range n_nodes).foldl (fun c i => encRSA (keys i).2 c) datum

/-- The in-place random.shuffle of a list, modelled as reading the elements
at a freshly drawn sequence of positions: Fisher-Yates draws the positions
from the PRNG without looking at the element values, so the drawn
rearrangement is a data-independent permutation of the positions. -/
def permuteBy {α : Type} (idxs : List Nat) (l : List α) : List α :=
  idxs.filterMap (fun i => l.get? i)

/-- The body of the per-ciphertext loop of shuffle_and_decrypt (lines
288-295): unpickle `(rem_round, ctext)`, raise on a round mismatch, peel one
layer with this node's K1 private key (`dec` abstracts
AnonCrypto.decrypt_with_rsa with self.key1) and repickle with the node's own
round id. -/
def sad_step (loads : Bytes → Nat × Bytes) (dumps : Nat × Bytes → Bytes)
    (round_id : Nat) (dec : Bytes → Bytes) (ctuple : Bytes) : Except PyErr Bytes :=
  let t := loads ctuple
  if t.1 ≠ round_id then .error .mismatchedRoundIds
  else .ok (dumps (round_id, dec t.2))

/-- shuffle_and_decrypt (shuffle_node.py lines 285-295): random.shuffle the
incoming list in place (the drawn positional permutation is `shuffle_idxs`),
then run the decrypt-and-repickle loop over the shuffled list, collecting
self.data_out. -/
def shuffle_and_decrypt (loads : Bytes → Nat × Bytes) (dumps : Nat × Bytes → Bytes)
    (round_id : Nat) (dec : Bytes → Bytes) (shuffle_idxs : List Nat)
    (data_in : List Bytes) : Except PyErr (List Bytes) :=
  mapLoop (sad_step loads dumps round_id dec) (permuteBy shuffle_idxs data_in)

/-- The bytes a node forwards in phase 3 (run_phase3 lines 272-279): the
pickle of self.data_out as produced by shuffle_and_decrypt; the same bytes go
to the next ring member, or to the leader from the last node.  `dumpsList`
abstracts cPickle.dumps on lists. -/
def run_phase3_outstr (dumpsList : List Bytes → Bytes) (loads : Bytes → Nat × Bytes)
    (dumps : Nat × Bytes → Bytes) (round_id : Nat) (dec : Bytes → Bytes)
    (shuffle_idxs : List Nat) (data_in : List Bytes) : Except PyErr Bytes :=
  match shuffle_and_decrypt loads dumps round_id dec shuffle_idxs data_in with
  | .error e => .error e
  | .ok data_out => .ok (dumpsList data_out)

/-- The phase-3 ring: node 0 shuffles the phase-2 list, each following node
shuffles what it received, so after k hops the list has passed nodes
0, ..., k-1 in order.  `dec1 k` is node k's K1 decryption, `perms k` the
positional permutation node k's random.shuffle draws. -/
def run_phase3_chain (loads : Bytes → Nat × Bytes) (dumps : Nat × Bytes → Bytes)
    (round_id : Nat) (dec1 : Nat → Bytes → Bytes) (perms : Nat → List Nat) :
    Nat → List Bytes → Except PyErr (List Bytes)
  | 0, data => .ok data
  | k + 1, data =>
    match run_phase3_chain loads dumps round_id dec1 perms k data with
    | .error e => .error e
    | .ok d => shuffle_and_decrypt loads dumps round_id (dec1 k) (perms k) d

/-- The local computation of run_phase4 (shuffle_node.py lines 314-334):
my_cipher_str is the pickled (round_id, cipher_prime); go is set by the
membership test in self.final_ciphers (the raise at line 327 is commented
out in the source, so the computation is total); the hash of the final
cipher set is computed either way, and the go message (id, round_id, go,
hashval) is built and sent either way.  The Bool component records whether
the critical ABORT log line was emitted (exactly when go is False). -/
def run_phase4_local (dumps : Nat × Bytes → Bytes) (hash_list : List Bytes → Bytes)
    (id round_id : Nat) (cipher_prime : Bytes) (final_ciphers : List Bytes) :
    Bool × (Nat × Nat × Bool × Bytes) :=
  let my_cipher_str := dumps (round_id, cipher_prime)
  let go : Bool := decide (my_cipher_str ∈ final_ciphers)
  (!go, (id, round_id, go, hash_list final_ciphers))

/-- check_go_data (shuffle_node.py lines 356-368): for each pickled vote blob,
verify the signature (`vrf` abstracts AnonCrypto.verify with the peer keyset;
it returns the signed payload or raises), unpickle the vote tuple (`loadVote`
abstracts cPickle.loads), then raise on a round mismatch, on go being false,
and on a hash different from the locally computed one; return True when every
item passes. -/
def check_go_data (vrf : Bytes → Except PyErr Bytes)
    (loadVote : Bytes → Nat × Nat × Bool × Bytes) (round_id : Nat) (hashval : Bytes) :
    List Bytes → Except PyErr Bool
  | [] => .ok true
  | item :: rest =>
    match vrf item with
    | .error e => .error e
    | .ok item_str =>
      let v := loadVote item_str
      if v.2.1 ≠ round_id then .error .mismatchedRoundIds
      else if v.2.2.1 = false then .error .nodeReportsFailure
      else if v.2.2.2 ≠ hashval then .error .badHash
      else check_go_data vrf loadVote round_id hashval rest

/-- The body of the decryption loop of decrypt_ciphers (lines 421-427):
unpickle `(r_round, cipher_prime)`, raise on a round mismatch, apply the
revealed K2 private keys `for i in xrange(0, self.n_nodes)` in ascending
order, then unpackage the recovered datum. -/
def decrypt_one {S : Type} (loads : Bytes → Nat × Bytes) (decRSA : S → Bytes → Bytes)
    (round_id max_len n_nodes : Nat) (priv_keys : Nat → Option S) (cipher : Bytes) :
    Except PyErr Bytes :=
  let t := loads cipher
  if t.1 ≠ round_id then .error .mismatchedRoundIds
  else
    match cryptoLoop decRSA priv_keys (List.range n_nodes) t.2 with
    | .error e => .error e
    | .ok cp => unpackage_msg loads max_len cp

/-- decrypt_ciphers (shuffle_node.py lines 410-429), decryption half: the
signature-verification prelude that builds the priv_keys dictionary from the
phase-5 key reveals is abstracted into the `priv_keys` map; the plaintext
list self.anon_data is collected over self.final_ciphers. -/
def decrypt_ciphers {S : Type} (loads : Bytes → Nat × Bytes) (decRSA : S → Bytes → Bytes)
    (round_id max_len n_nodes : Nat) (priv_keys : Nat → Option S)
    (final_ciphers : List Bytes) : Except PyErr (List Bytes) :=
  mapLoop (decrypt_one loads decRSA round_id max_len n_nodes priv_keys) final_ciphers

/-- One honest round's data path, phases 2, 3 and 5, for n_nodes nodes with
message function `msg`: every node packages and layer-encrypts its datum
(create_cipher_string with the full keyset), the leader collects the pickled
(round_id, cipher) submissions in some arrival order (`init_order`), the list
passes the phase-3 ring (each node drawing the positional permutation
`perms k`), and the final cipher set is collectively decrypted with the
revealed K2 private keys.  `pk i` is node i's public (K1, K2), `sk1 i`/`sk2 i`
its private K1/K2. -/
def honest_run {K S : Type} (encRSA : K → Bytes → Bytes) (decRSA : S → Bytes → Bytes)
    (pk : Nat → K × K) (sk1 sk2 : Nat → S) (dumps : Nat × Bytes → Bytes)
    (loads : Bytes → Nat × Bytes) (n_nodes max_len round_id : Nat) (msg : Nat → Bytes)
    (init_order : List Nat) (perms : Nat → List Nat) : Except PyErr (List Bytes) :=
  match mapLoop (fun i => create_cipher_string encRSA (fun j => some (pk j)) n_nodes
      (package_msg dumps max_len (msg i))) (List.range n_nodes) with
  | .error e => .error e
  | .ok pairs =>
    let data0 := permuteBy init_order (pairs.map (fun pc => dumps (round_id, pc.2)))
    match run_phase3_chain loads dumps round_id (fun k => decRSA (sk1 k)) perms
        n_nodes data0 with
    | .error e => .error e
    | .ok final_ciphers =>
      decrypt_ciphers loads decRSA round_id max_len n_nodes (fun i => some (sk2 i))
        final_ciphers

/-- Assignment `d[k] = v` on a Python dictionary modelled as an association
list: overwrite the entry when the key is present, append it otherwise. -/
def dictSet {α : Type} (d : List (Nat × α)) (k : Nat) (v : α) : List (Nat × α) :=
  if d.any (fun p => p.1 == k) then d.map (fun p => if p.1 == k then (k, v) else p)
  else d ++ [(k, v)]

/-- Lookup `d[k]` on the association-list dictionary. -/
def dictGet {α : Type} (d : List (Nat × α)) (k : Nat) : Option α :=
  (d.find? (fun p => p.1 == k)).map Prod.snd

/-- have_all_keys (shuffle_node.py lines 486-487): `len(self.pub_keys) ==
self.n_nodes`. -/
def have_all_keys {K : Type} (pub_keys : List (Nat × (K × K))) (n_nodes : Nat) : Bool :=
  pub_keys.length == n_nodes

/-- The per-entry loop of unpickle_keyset (lines 160-169): load K1 from its
string, check it, store (k1, k1), verify the K2 signature against the
keyset as populated so far, load and check K2, store (k1, k2).
pub_key_from_str, check_key and verify abstract the M2Crypto/AnonCrypto
calls; each may raise. -/
def unpickle_keyset_loop {K : Type} (pub_key_from_str : Bytes → Except PyErr K)
    (check_key : K → Except PyErr Unit)
    (verify : List (Nat × (K × K)) → Bytes → Except PyErr Bytes) :
    List (Nat × (Bytes × Bytes)) → List (Nat × (K × K)) →
    Except PyErr (List (Nat × (K × K)))
  | [], pub_keys => .ok pub_keys
  | (i, s1, s2) :: rest, pub_keys =>
    match pub_key_from_str s1 with
    | .error e => .error e
    | .ok k1 =>
      match check_key k1 with
      | .error e => .error e
      | .ok _ =>
        let pks1 := dictSet pub_keys i (k1, k1)
        match verify pks1 s2 with
        | .error e => .error e
        | .ok s2Payload =>
          match pub_key_from_str s2Payload with
          | .error e => .error e
          | .ok k2 =>
            match check_key k2 with
            | .error e => .error e
            | .ok _ =>
              unpickle_keyset_loop pub_key_from_str check_key verify rest
                (dictSet pks1 i (k1, k2))

/-- unpickle_keyset (shuffle_node.py lines 153-171): a non-leader decodes
the leader's consolidated key message `(rem_round_id, keydict)` (already
unpickled here; the dictionary iteration order is the entry list order),
raising only on a round mismatch or on a failing crypto call.  `pub_keys` is
the node's keyset before the call (it already holds the node's own entry
from generate_keys).  Note: no completeness check of any kind is performed
here or anywhere in the non-leader branch of run_phase1. -/
def unpickle_keyset {K : Type} (pub_key_from_str : Bytes → Except PyErr K)
    (check_key : K → Except PyErr Unit)
    (verify : List (Nat × (K × K)) → Bytes → Except PyErr Bytes) (round_id : Nat)
    (keys_msg : Nat × List (Nat × (Bytes × Bytes))) (pub_keys : List (Nat × (K × K))) :
    Except PyErr (List (Nat × (K × K))) :=
  if keys_msg.1 ≠ round_id then .error .mismatchedRoundIds
  else unpickle_keyset_loop pub_key_from_str check_key verify keys_msg.2 pub_keys

/-- am_leader (shuffle_node.py lines 104-105): `self.id == 0`. -/
def am_leader (id : Nat) : Bool := id == 0

/-- broadcast_to_all_nodes (shuffle_node.py lines 445-455): raise before
anything is sent when the caller is not the leader; otherwise optionally sign
the message and send it to each stored peer address `self.addrs[i]` for
`i in xrange(0, self.n_nodes - 1)`.  The sends are modelled as the returned
list of (address, bytes) pairs; an error means nothing was handed to the
transport. -/
def broadcast_to_all_nodes {A : Type} (sign : Bytes → Bytes) (id n_nodes : Nat)
    (addrs : List A) (msg : Bytes) (signed : Bool) : Except PyErr (List (A × Bytes)) :=
  if !(am_leader id) then .error .onlyLeaderCanBroadcast
  else
    let outmsg := if signed then sign msg else msg
    mapLoop (fun i =>
      match addrs.get? i with
      | none => .error .missingIndex
      | some a => .ok (a, outmsg)) (List.range (n_nodes - 1))

/-- A vote blob fails the phase-4 checks when its signature does not verify,
or its tuple carries the wrong round id, go false, or the wrong hash. -/
def badVote (vrf : Bytes → Except PyErr Bytes) (loadVote : Bytes → Nat × Nat × Bool × Bytes)
    (round_id : Nat) (hashval : Bytes) (item : Bytes) : Prop :=
  (∃ e, vrf item = .error e) ∨
  (∃ s, vrf item = .ok s ∧
    ((loadVote s).2.1 ≠ round_id ∨ (loadVote s).2.2.1 = false ∨
      (loadVote s).2.2.2 ≠ hashval))

/- ------------------------------------------------------------------ -/
/- Helper lemmas                                                      -/
/- ------------------------------------------------------------------ -/

theorem mapLoop_ok {α β : Type} (f : α → Except PyErr β) (g : α → β) :
    ∀ l : List α, (∀ x ∈ l, f x = .ok (g x)) → mapLoop f l = .ok (l.map g) := by
  intro l
  induction l with
  | nil => intro _; rfl
  | cons a t ih =>
    intro h
    have ha : f a = .ok (g a) := h a (by simp)
    have ht : ∀ x ∈ t, f x = .ok (g x) := fun x hx => h x (by simp [hx])
    simp [mapLoop, ha, ih ht]

theorem cryptoLoop_some {T : Type} (op : T → Bytes → Bytes) (k : Nat → T) :
    ∀ (l : List Nat) (c : Bytes),
      cryptoLoop op (fun i => some (k i)) l c =
        .ok (l.foldl (fun c i => op (k i) c) c) := by
  intro l
  induction l with
  | nil => intro c; rfl
  | cons j rest ih => intro c; simp [cryptoLoop, ih]

theorem cryptoLoop_missing {T : Type} (op : T → Bytes → Bytes) (keys : Nat → Option T) :
    ∀ (l : List Nat) (c : Bytes), (∃ i ∈ l, keys i = none) →
      ∃ e, cryptoLoop op keys l c = .error e := by
  intro l
  induction l with
  | nil => intro c h; simp at h
  | cons j rest ih =>
    intro c h
    rcases h with ⟨i, hi, hnone⟩
    rcases List.mem_cons.mp hi with rfl | hrest
    · exact ⟨.missingKey, by simp [cryptoLoop, hnone]⟩
    · cases hj : keys j with
      | none => exact ⟨.missingKey, by simp [cryptoLoop, hj]⟩
      | some k =>
        rcases ih (op k c) ⟨i, hrest, hnone⟩ with ⟨e, he⟩
        exact ⟨e, by simp [cryptoLoop, hj, he]⟩

theorem permuteBy_mem {α : Type} {idxs : List Nat} {l : List α} {x : α}
    (h : x ∈ permuteBy idxs l) : x ∈ l := by
  rcases List.mem_filterMap.mp h with ⟨i, _, hget⟩
  exact List.get?_mem hget

theorem permuteBy_map {α β : Type} (f : α → β) (idxs : List Nat) (l : List α) :
    permuteBy idxs (l.map f) = (permuteBy idxs l).map f := by
  unfold permuteBy
  rw [List.map_filterMap]
  simp only [List.get?_map]

theorem filterMap_get?_range {α : Type} : ∀ l : List α,
    (List.range l.length).filterMap l.get? = l := by
  intro l
  induction l with
  | nil => rfl
  | cons a t ih =>
    rw [List.length_cons, List.range_succ_eq_map, List.filterMap_cons]
    simp only [List.get?_cons_zero, List.filterMap_map, Function.comp]
    have hc : ((a :: t).get? ∘ Nat.succ) = t.get? := funext fun i => rfl
    rw [hc, ih]

theorem permuteBy_perm {α : Type} {idxs : List Nat} {l : List α}
    (h : idxs.Perm (List.range l.length)) : (permuteBy idxs l).Perm l := by
  have hp := h.filterMap l.get?
  rwa [filterMap_get?_range] at hp

theorem unpackage_package_aux (dumps : Nat × Bytes → Bytes) (loads : Bytes → Nat × Bytes)
    (h_rt : ∀ t, loads (dumps t) = t) (max_len : Nat) (msg : Bytes)
    (hlen : msg.length ≤ max_len) :
    unpackage_msg loads max_len (package_msg dumps max_len msg) = .ok msg := by
  have hL : (msg ++ List.replicate (max_len - msg.length) 88).length = max_len := by
    simp [List.length_append]
    omega
  simp only [unpackage_msg, package_msg, package_tuple, h_rt, hL]
  simp [List.take_left]

theorem create_cipher_string_some {K : Type} (encRSA : K → Bytes → Bytes)
    (keys : Nat → K × K) (n : Nat) (datum : Bytes) :
    create_cipher_string encRSA (fun i => some (keys i)) n datum =
      .ok ((List.range n).foldr (fun i c => encRSA (keys i).2 c) datum,
        (List.range n).foldr (fun i c => encRSA (keys i).1 c)
          ((List.range n).foldr (fun i c => encRSA (keys i).2 c) datum)) := by
  unfold create_cipher_string
  simp only [Option.map_some', cryptoLoop_some, List.foldl_reverse]

theorem peel_wrap (E D : Nat → Bytes → Bytes) (h : ∀ i m, D i (E i m) = m) :
    ∀ (n : Nat) (x : Bytes),
      (List.range n).foldl (fun c i => D i c)
        ((List.range n).foldr (fun i c => E i c) x) = x := by
  intro n
  induction n with
  | zero => intro x; rfl
  | succ m ih =>
    intro x
    rw [List.range_succ, List.foldr_append, List.foldl_append]
    simp only [List.foldr_cons, List.foldr_nil, List.foldl_cons, List.foldl_nil]
    rw [ih (E m x)]
    exact h m x

theorem shuffle_and_decrypt_eq (loads : Bytes → Nat × Bytes) (dumps : Nat × Bytes → Bytes)
    (round_id : Nat) (dec : Bytes → Bytes) (idxs : List Nat) (data_in : List Bytes)
    (hw : ∀ x ∈ data_in, (loads x).1 = round_id) :
    shuffle_and_decrypt loads dumps round_id dec idxs data_in =
      .ok (permuteBy idxs (data_in.map (fun x => dumps (round_id, dec (loads x).2)))) := by
  unfold shuffle_and_decrypt
  rw [permuteBy_map]
  apply mapLoop_ok
  intro x hx
  have hr := hw x (permuteBy_mem hx)
  simp [sad_step, hr]

theorem run_phase3_chain_perm (loads : Bytes → Nat × Bytes) (dumps : Nat × Bytes → Bytes)
    (h_rt : ∀ t, loads (dumps t) = t) (round_id : Nat) (dec1 : Nat → Bytes → Bytes)
    (perms : Nat → List Nat) (n : Nat) (hperms : ∀ j, (perms j).Perm (List.range n))
    (c : Nat → Bytes) (data0 : List Bytes)
    (h0 : data0.Perm ((List.range n).map (fun i => dumps (round_id, c i)))) :
    ∀ k, ∃ L, run_phase3_chain loads dumps round_id dec1 perms k data0 = .ok L ∧
      L.Perm ((List.range n).map (fun i =>
        dumps (round_id, (List.range k).foldl (fun t j => dec1 j t) (c i)))) := by
  intro k
  induction k with
  | zero => exact ⟨data0, rfl, by simpa using h0⟩
  | succ k ih =>
    rcases ih with ⟨L, hL, hLp⟩
    have hlen : L.length = n := by
      have hl := hLp.length_eq
      simpa using hl
    have hperm2 : (permuteBy (perms k) L).Perm L :=
      permuteBy_perm (by rw [hlen]; exact hperms k)
    have hw : ∀ x ∈ L, (loads x).1 = round_id := by
      intro x hx
      rcases List.mem_map.mp (hLp.mem_iff.mp hx) with ⟨i, _, rfl⟩
      rw [h_rt]
    have hsad := shuffle_and_decrypt_eq loads dumps round_id (dec1 k) (perms k) L hw
    refine ⟨_, by simp only [run_phase3_chain, hL]; exact hsad, ?_⟩
    have p1 : (permuteBy (perms k)
        (L.map (fun x => dumps (round_id, dec1 k (loads x).2)))).Perm
        (L.map (fun x => dumps (round_id, dec1 k (loads x).2))) := by
      rw [permuteBy_map]
      exact hperm2.map _
    have p2 := hLp.map (fun x => dumps (round_id, dec1 k (loads x).2))
    have p3 : ((List.range n).map (fun i =>
          dumps (round_id, (List.range k).foldl (fun t j => dec1 j t) (c i)))).map
          (fun x => dumps (round_id, dec1 k (loads x).2)) =
        (List.range n).map (fun i => dumps (round_id,
          dec1 k ((List.range k).foldl (fun t j => dec1 j t) (c i)))) := by
      rw [List.map_map]
      apply List.map_congr_left
      intro i _
      simp [h_rt]
    rw [p3] at p2
    have p4 := p1.trans p2
    simp only [List.range_succ, List.foldl_append, List.foldl_cons, List.foldl_nil]
    exact p4

/-- Claim C1: for every honest run with n nodes and messages each of length
at most max_len, the multiset of plaintexts recovered after Phase 5 — each
node's K2 decryption applied to every element of the final cipher set F and
the result unpackaged — equals the multiset of the n submitted plaintexts
(list permutation is multiset equality). -/
theorem honest_run_multiset {K S : Type} (encRSA : K → Bytes → Bytes)
    (decRSA : S → Bytes → Bytes) (pk : Nat → K × K) (sk1 sk2 : Nat → S)
    (dumps : Nat × Bytes → Bytes) (loads : Bytes → Nat × Bytes)
    (h_rt : ∀ t, loads (dumps t) = t)
    (hdk1 : ∀ i m, decRSA (sk1 i) (encRSA (pk i).1 m) = m)
    (hdk2 : ∀ i m, decRSA (sk2 i) (encRSA (pk i).2 m) = m)
    (n max_len round_id : Nat) (msg : Nat → Bytes)
    (hlen : ∀ i, i < n → (msg i).length ≤ max_len)
    (init_order : List Nat) (perms : Nat → List Nat)
    (h0 : init_order.Perm (List.range n)) (hp : ∀ j, (perms j).Perm (List.range n)) :
    ∃ out, honest_run encRSA decRSA pk sk1 sk2 dumps loads n max_len round_id msg
        init_order perms = .ok out ∧ out.Perm ((List.range n).map msg) := by
  set dat := fun i => package_msg dumps max_len (msg i) with hdat
  set w2 := fun i => (List.range n).foldr (fun j c => encRSA (pk j).2 c) (dat i) with hw2
  set w1 := fun i => (List.range n).foldr (fun j c => encRSA (pk j).1 c) (w2 i) with hw1
  have hpairs : mapLoop (fun i => create_cipher_string encRSA (fun j => some (pk j)) n
      (package_msg dumps max_len (msg i))) (List.range n) =
      .ok ((List.range n).map (fun i => (w2 i, w1 i))) := by
    apply mapLoop_ok
    intro i _
    exact create_cipher_string_some encRSA pk n (dat i)
  have hlen0 : ((List.range n).map (fun i => (w2 i, w1 i))).length = n := by simp
  have hdata0 : (permuteBy init_order (((List.range n).map (fun i => (w2 i, w1 i))).map
      (fun pc => dumps (round_id, pc.2)))).Perm
      ((List.range n).map (fun i => dumps (round_id, w1 i))) := by
    rw [List.map_map]
    have hpb : (permuteBy init_order ((List.range n).map
        (fun i => dumps (round_id, w1 i)))).Perm
        ((List.range n).map (fun i => dumps (round_id, w1 i))) := by
      apply permuteBy_perm
      simpa using h0
    exact hpb
  have hchain := run_phase3_chain_perm loads dumps h_rt round_id
    (fun k => decRSA (sk1 k)) perms n hp w1 _ hdata0 n
  rcases hchain with ⟨F, hF, hFp⟩
  have hFw2 : ((List.range n).map (fun i =>
      dumps (round_id, (List.range n).foldl (fun t j => decRSA (sk1 j) t) (w1 i)))) =
      (List.range n).map (fun i => dumps (round_id, w2 i)) := by
    apply List.map_congr_left
    intro i _
    have hpw := peel_wrap (fun j c => encRSA (pk j).1 c) (fun j t => decRSA (sk1 j) t)
      hdk1 n (w2 i)
    congr 1
    exact congrArg (fun z => (round_id, z)) hpw
  rw [hFw2] at hFp
  -- phase 5
  set g := fun x : Bytes => (loads ((List.range n).foldl (fun c j => decRSA (sk2 j) c)
      (loads x).2)).2.take
      (loads ((List.range n).foldl (fun c j => decRSA (sk2 j) c) (loads x).2)).1 with hgdef
  have hpeel2 : ∀ i, (List.range n).foldl (fun c j => decRSA (sk2 j) c) (w2 i) = dat i :=
    fun i => peel_wrap (fun j c => encRSA (pk j).2 c) (fun j c => decRSA (sk2 j) c)
      hdk2 n (dat i)
  have hg : ∀ i, i < n → g (dumps (round_id, w2 i)) = msg i := by
    intro i hi
    have hlp : loads (dumps (round_id, w2 i)) = (round_id, w2 i) := h_rt _
    rw [hgdef]
    simp only [hlp]
    rw [hpeel2 i, hdat]
    simp only [package_msg, h_rt, package_tuple]
    exact List.take_left _ _
  have hdec1 : ∀ i, i < n → decrypt_one loads decRSA round_id max_len n
      (fun j => some (sk2 j)) (dumps (round_id, w2 i)) = .ok (msg i) := by
    intro i hi
    unfold decrypt_one
    simp only [h_rt, cryptoLoop_some, ne_eq, not_true_eq_false, if_false]
    rw [hpeel2 i, hdat]
    exact unpackage_package_aux dumps loads h_rt max_len (msg i) (hlen i hi)
  have hstep : ∀ x ∈ F, decrypt_one loads decRSA round_id max_len n
      (fun j => some (sk2 j)) x = .ok (g x) := by
    intro x hx
    rcases List.mem_map.mp (hFp.mem_iff.mp hx) with ⟨i, hi, rfl⟩
    have hi' : i < n := List.mem_range.mp hi
    rw [hdec1 i hi', hg i hi']
  have hdc : decrypt_ciphers loads decRSA round_id max_len n (fun j => some (sk2 j)) F =
      .ok (F.map g) := by
    unfold decrypt_ciphers
    exact mapLoop_ok _ _ _ hstep
  refine ⟨F.map g, ?_, ?_⟩
  · unfold honest_run
    rw [hpairs]
    simp only []
    rw [hF]
    exact hdc
  · have hmg := hFp.map g
    have hme : ((List.range n).map (fun i => dumps (round_id, w2 i))).map g =
        (List.range n).map msg := by
      rw [List.map_map]
      apply List.map_congr_left
      intro i hi
      exact hg i (List.mem_range.mp hi)
    rw [hme] at hmg
    exact hmg

/-- Witness for C1 at a concrete instance: two nodes, max_len 1, round id 5,
both messages [7], a trivially reversible layer cipher and pair encoding,
identity arrival order and a swap at each shuffle. -/
theorem honest_run_multiset_witness :
    ∃ out, honest_run (K := Unit) (S := Unit) (fun _ m => 0 :: m) (fun _ m => m.tail)
        (fun _ => ((), ())) (fun _ => ()) (fun _ => ())
        (fun t => t.1 :: t.2) (fun l => (l.headD 0, l.tail)) 2 1 5 (fun _ => [7])
        [0, 1] (fun _ => [1, 0]) = .ok out ∧
      out.Perm ((List.range 2).map (fun _ => [7])) :=
  honest_run_multiset (fun _ m => 0 :: m) (fun _ m => m.tail) (fun _ => ((), ()))
    (fun _ => ()) (fun _ => ()) (fun t => t.1 :: t.2) (fun l => (l.headD 0, l.tail))
    (fun _ => rfl) (fun _ _ => rfl) (fun _ _ => rfl) 2 1 5 (fun _ => [7])
    (fun _ _ => Nat.le_refl 1) [0, 1] (fun _ => [1, 0]) (by decide)
    (fun _ => (by decide : ([1, 0] : List Nat).Perm (List.range 2)))

/-- Claim C2: for every message of length at most max_len, unpackaging the
packaged datum returns exactly the message:
unpackage_msg (package_msg m) = m. -/
theorem claim_unpackage_package (dumps : Nat × Bytes → Bytes) (loads : Bytes → Nat × Bytes)
    (h_rt : ∀ t, loads (dumps t) = t) (max_len : Nat) (msg : Bytes)
    (hlen : msg.length ≤ max_len) :
    unpackage_msg loads max_len (package_msg dumps max_len msg) = .ok msg :=
  unpackage_package_aux dumps loads h_rt max_len msg hlen

/-- Witness for C2: max_len 4, message [1, 2], pair encoding by consing. -/
theorem claim_unpackage_package_witness :
    unpackage_msg (fun l => (l.headD 0, l.tail)) 4
      (package_msg (fun t => t.1 :: t.2) 4 [1, 2]) = .ok [1, 2] :=
  claim_unpackage_package (fun t => t.1 :: t.2) (fun l => (l.headD 0, l.tail))
    (fun _ => rfl) 4 [1, 2] (by decide)

/-- Claim C3 is right and the code is wrong: package_msg is supposed to fail
locally for a message longer than max_len, but the source raises nothing —
the Python padding expression yields an empty pad for an over-long message
(mirrored by Nat subtraction) and the over-long datum is stored silently, in
contradiction with the function's own docstring (pad so the message is
max_len bytes) and with unpackage_msg's length assertion.  At max_len 4 and
the five-byte message hello, the stored tuple is (5, hello): no padding, no
error, and a payload that is not max_len bytes. -/
theorem package_msg_overlong_silent :
    package_tuple 4 [104, 101, 108, 108, 111] = (5, [104, 101, 108, 108, 111]) ∧
      (package_tuple 4 [104, 101, 108, 108, 111]).2.length ≠ 4 := by decide

/-- Claim C4 is right and the code is wrong: packaged data items are supposed
to have byte-for-byte identical length (max_len plus a constant header), but
the source stores a cPickle protocol-0 dump whose INT field holds the decimal
digits of the message length, so under max_len 10 a 9-byte message and a
10-byte message produce packaged data whose total lengths differ by one,
whatever fixed closing opcodes cPickle appends. -/
theorem package_msg_length_leak (memo_suffix : Bytes) :
    (package_msg (cPickle_dumps_int_str memo_suffix) 10 (List.replicate 9 97)).length ≠
      (package_msg (cPickle_dumps_int_str memo_suffix) 10 (List.replicate 10 97)).length := by
  have d1 : (decDigits (package_tuple 10 (List.replicate 9 97)).1).length = 1 := by decide
  have d2 : (decDigits (package_tuple 10 (List.replicate 10 97)).1).length = 2 := by decide
  have r1 : (pyRepr (package_tuple 10 (List.replicate 9 97)).2).length = 12 := by decide
  have r2 : (pyRepr (package_tuple 10 (List.replicate 10 97)).2).length = 12 := by decide
  simp only [package_msg, cPickle_dumps_int_str, List.length_append, List.length_cons,
    List.length_nil, d1, d2, r1, r2]
  omega

/-- Claim C5 is false as stated: with the order-sensitive layer cipher that
conses the key onto the bytes, two nodes and an empty datum, the source's
inner ciphertext is [0, 1] — node 1's K2 applied first and node 0's K2 as the
outermost layer — while the composition the claim states (node 0's K2 applied
first, node 1's outermost) gives [1, 0]. -/
theorem create_cipher_string_order_cex :
    (create_cipher_string (fun k m => k :: m) (fun i => some (i + 10, i)) 2 []).map
        Prod.fst ≠
      .ok (cipher_prime_claim_order (fun k m => k :: m) (fun i => (i + 10, i)) 2 []) := by
  have h1 : (create_cipher_string (fun k m => k :: m) (fun i => some (i + 10, i)) 2
      []).map Prod.fst = .ok [0, 1] := rfl
  have h2 : Except.ok (ε := PyErr)
      (cipher_prime_claim_order (fun k m => k :: m) (fun i => (i + 10, i)) 2 []) =
      .ok [1, 0] := rfl
  rw [h1, h2]
  intro h
  exact absurd (Except.ok.inj h) (by decide)

/-- Claim C5 amended: create_cipher_string applies the K2 encryptions in
descending node order — node n-1's K2 is applied first (innermost) to the
packaged datum and node 0's K2 is the outermost layer of the inner
ciphertext — and likewise the K1 layer on top of it, node n-1's K1 first and
node 0's K1 outermost. -/
theorem create_cipher_string_desc_order {K : Type} (encRSA : K → Bytes → Bytes)
    (keys : Nat → K × K) (n : Nat) (datum : Bytes) :
    create_cipher_string encRSA (fun i => some (keys i)) n datum =
      .ok ((List.range n).foldr (fun i c => encRSA (keys i).2 c) datum,
        (List.range n).foldr (fun i c => encRSA (keys i).1 c)
          ((List.range n).foldr (fun i c => encRSA (keys i).2 c) datum)) :=
  create_cipher_string_some encRSA keys n datum

/-- Claim C6: the list a node forwards in phase 3 equals the drawn uniformly
random permutation applied to the element-wise K1 decryption of the incoming
list — the permutation acts after the decryption and before forwarding — and
that list is a permutation of the decrypted input.  (random.shuffle runs
before the decryption loop in the source, but the drawn positional
permutation is data-independent, so it commutes with the element-wise
decryption.) -/
theorem phase3_permutation_after_decrypt (dumpsList : List Bytes → Bytes)
    (loads : Bytes → Nat × Bytes) (dumps : Nat × Bytes → Bytes) (round_id : Nat)
    (dec : Bytes → Bytes) (idxs : List Nat) (data_in : List Bytes)
    (hw : ∀ x ∈ data_in, (loads x).1 = round_id)
    (hperm : idxs.Perm (List.range data_in.length)) :
    run_phase3_outstr dumpsList loads dumps round_id dec idxs data_in =
      .ok (dumpsList (permuteBy idxs
        (data_in.map (fun x => dumps (round_id, dec (loads x).2))))) ∧
      (permuteBy idxs (data_in.map (fun x => dumps (round_id, dec (loads x).2)))).Perm
        (data_in.map (fun x => dumps (round_id, dec (loads x).2))) := by
  constructor
  · unfold run_phase3_outstr
    rw [shuffle_and_decrypt_eq loads dumps round_id dec idxs data_in hw]
  · exact permuteBy_perm (by simpa using hperm)

/-- Witness for C6: two wrapped ciphertexts under round id 3, swap
permutation, identity layer decryption, flatten as the list pickle. -/
theorem phase3_permutation_after_decrypt_witness :
    run_phase3_outstr (fun l => l.flatten) (fun l => (l.headD 0, l.tail))
        (fun t => t.1 :: t.2) 3 (fun b => b) [1, 0] [[3, 5], [3, 6]] =
      .ok [3, 6, 3, 5] ∧ ([[3, 6], [3, 5]] : List Bytes).Perm [[3, 5], [3, 6]] :=
  phase3_permutation_after_decrypt (fun l => l.flatten) (fun l => (l.headD 0, l.tail))
    (fun t => t.1 :: t.2) 3 (fun b => b) [1, 0] [[3, 5], [3, 6]] (by decide) (by decide)

/-- Claim C7: check_go_data raises a fatal error if and only if some vote in
the list fails signature verification, carries a round id different from the
node's own, has go false, or has a hash different from the node's locally
computed hash of the final cipher set; when no vote fails any check it
completes without error (the result is then ok true, never an error). -/
theorem check_go_data_error_iff (vrf : Bytes → Except PyErr Bytes)
    (loadVote : Bytes → Nat × Nat × Bool × Bytes) (round_id : Nat) (hashval : Bytes)
    (go_lst : List Bytes) :
    (∃ e, check_go_data vrf loadVote round_id hashval go_lst = .error e) ↔
      ∃ item ∈ go_lst, badVote vrf loadVote round_id hashval item := by
  induction go_lst with
  | nil => simp [check_go_data]
  | cons item rest ih =>
    cases hv : vrf item with
    | error e =>
      apply iff_of_true
      · exact ⟨e, by simp [check_go_data, hv]⟩
      · exact ⟨item, by simp, Or.inl ⟨e, hv⟩⟩
    | ok s =>
      by_cases h1 : (loadVote s).2.1 = round_id
      · by_cases h2 : (loadVote s).2.2.1 = false
        · apply iff_of_true
          · exact ⟨.nodeReportsFailure, by simp [check_go_data, hv, h1, h2]⟩
          · exact ⟨item, by simp, Or.inr ⟨s, hv, Or.inr (Or.inl h2)⟩⟩
        · by_cases h3 : (loadVote s).2.2.2 = hashval
          · have hstep : check_go_data vrf loadVote round_id hashval (item :: rest) =
                check_go_data vrf loadVote round_id hashval rest := by
              simp [check_go_data, hv, h1, h2, h3]
            rw [hstep, ih, List.exists_mem_cons_iff]
            constructor
            · exact Or.inr
            · rintro (hbad | h)
              · exfalso
                rcases hbad with ⟨e, he⟩ | ⟨s2, hs2, hc⟩
                · rw [hv] at he
                  exact Except.noConfusion he
                · rw [hv] at hs2
                  injection hs2 with hss
                  subst hss
                  rcases hc with hc | hc | hc
                  · exact hc h1
                  · exact absurd hc h2
                  · exact hc h3
              · exact h
          · apply iff_of_true
            · exact ⟨.badHash, by simp [check_go_data, hv, h1, h2, h3]⟩
            · exact ⟨item, by simp, Or.inr ⟨s, hv, Or.inr (Or.inr h3)⟩⟩
      · apply iff_of_true
        · exact ⟨.mismatchedRoundIds, by simp [check_go_data, hv, h1]⟩
        · exact ⟨item, by simp, Or.inr ⟨s, hv, Or.inl h1⟩⟩

/-- Claim C8: a node whose own inner ciphertext is absent from the broadcast
final set raises no error at that point (the raise in the source is commented
out, so the computation is total): it logs the critical ABORT (the Bool
component is true), sets go false, and still computes the hash of the final
set and builds the (id, round_id, go, hash) vote it then sends. -/
theorem run_phase4_absent_vote (dumps : Nat × Bytes → Bytes)
    (hash_list : List Bytes → Bytes) (id round_id : Nat) (cipher_prime : Bytes)
    (final_ciphers : List Bytes)
    (habs : dumps (round_id, cipher_prime) ∉ final_ciphers) :
    run_phase4_local dumps hash_list id round_id cipher_prime final_ciphers =
      (true, (id, round_id, false, hash_list final_ciphers)) := by
  unfold run_phase4_local
  simp [habs]

/-- Witness for C8: the wrapped inner ciphertext is absent from an empty
final set. -/
theorem run_phase4_absent_vote_witness :
    run_phase4_local (fun t => t.1 :: t.2) (fun _ => []) 1 3 [9] [] =
      (true, (1, 3, false, [])) :=
  run_phase4_absent_vote (fun t => t.1 :: t.2) (fun _ => []) 1 3 [9] [] (by decide)

/-- Claim C9 is false as stated: a non-leader processing a consolidated key
message that lacks a node's keys does not fail and asserts nothing — here a
node with id 1 of a 3-node round processes a message carrying only node 0's
keys (all crypto calls succeeding), unpickle_keyset returns ok with a keyset
of two entries, and have_all_keys is false; the node continues into Phase 2
with an incomplete keyset. -/
theorem unpickle_keyset_incomplete_ok :
    unpickle_keyset (K := Nat) (fun _ => .ok 0) (fun _ => .ok ()) (fun _ s => .ok s) 7
        (7, [(0, ([], []))]) [(1, (0, 0))] = .ok [(1, (0, 0)), (0, (0, 0))] ∧
      have_all_keys [(1, (0, 0)), (0, (0, 0))] 3 = false :=
  ⟨rfl, by decide⟩

/-- Claim C9 amended: non-leader nodes assert nothing about keyset
completeness in Phase 1 (only the leader calls have_all_keys); a keyset
lacking some node's entry is accepted silently there, and the missing key
first causes a failure in Phase 2, where create_cipher_string raises at the
keyset lookup of the missing id. -/
theorem create_cipher_missing_key {K : Type} (encRSA : K → Bytes → Bytes)
    (pub_keys : Nat → Option (K × K)) (n : Nat) (datum : Bytes) (i : Nat)
    (hi : i < n) (hmiss : pub_keys i = none) :
    ∃ e, create_cipher_string encRSA pub_keys n datum = .error e := by
  have hnone : (fun j => (pub_keys j).map Prod.snd) i = none := by simp [hmiss]
  rcases cryptoLoop_missing encRSA (fun j => (pub_keys j).map Prod.snd)
      ((List.range n).reverse) datum ⟨i, by simpa using hi, hnone⟩ with ⟨e, he⟩
  exact ⟨e, by simp [create_cipher_string, he]⟩

/-- Witness for the amended C9: an empty keyset with one node. -/
theorem create_cipher_missing_key_witness :
    ∃ e, create_cipher_string (K := Nat) (fun _ m => m) (fun _ => none) 1 [] =
      .error e :=
  create_cipher_missing_key (fun _ m => m) (fun _ => none) 1 [] 0 (by decide) rfl

/-- Claim C10: a node whose id is not 0 that calls broadcast_to_all_nodes
gets the only-leader-can-broadcast error before anything is handed to the
transport (the error return carries no send list). -/
theorem broadcast_requires_leader {A : Type} (sign : Bytes → Bytes) (id n_nodes : Nat)
    (addrs : List A) (msg : Bytes) (signed : Bool) (h : id ≠ 0) :
    broadcast_to_all_nodes sign id n_nodes addrs msg signed =
      .error .onlyLeaderCanBroadcast := by
  have hb : am_leader id = false := by simp [am_leader, h]
  simp [broadcast_to_all_nodes, hb]

/-- Witness for C10: node 1 of a 3-node round. -/
theorem broadcast_requires_leader_witness :
    broadcast_to_all_nodes (A := Nat) (fun b => b) 1 3 [] [] true =
      .error .onlyLeaderCanBroadcast :=
  broadcast_requires_leader (fun b => b) 1 3 [] [] true (by decide)
